import Mathlib

/-!
Verification of the DucksGather scrape-sanitize-validate-dedupe-ingest
pipeline.  The definitions below are a shallow embedding of the Python
sources under `backend/src/` (scraper/scraper.py, sanitize/sanitize.py,
sanitize/schemas.py, sanitize/duplicate_check.py).  Machine-level details
(Unicode NFKC normalization, full ISO-8601 grammar, HTML tokenization by
bleach) are modelled on the fragments the pipeline actually exercises; each
such simplification is noted at the definition it concerns.
-/

namespace DucksGather

/-! ## Python string primitives -/

/-- Whitespace characters recognised by Python str.split / str.strip
(ASCII subset; the pipeline only meets ASCII whitespace). -/
def pySpace (c : Char) : Bool :=
  c = ' ' || c = '\t' || c = '\n' || c = '\r' || c = '\x0b' || c = '\x0c'

/-- Python str.strip() on a character list: drop leading and trailing
whitespace. -/
def stripList (cs : List Char) : List Char :=
  ((cs.dropWhile pySpace).reverse.dropWhile pySpace).reverse

/-- Python str.strip(). -/
def pyStrip (s : String) : String := ⟨stripList s.data⟩

/-- Python str.split() with no argument: split on whitespace runs,
dropping empty pieces. -/
def pyWords (cs : List Char) : List (List Char) :=
  (cs.splitOnP (fun c => pySpace c)).filter (fun w => w ≠ [])

/-- sanitize.normalize_whitespace on a present string: collapse whitespace
runs to single spaces and trim the ends (the " ".join(s.split()) step).
The unicodedata.normalize("NFKC", s) step is the identity on the ASCII
strings this development uses and is not modelled. -/
def normalizeWhitespace (s : String) : String :=
  ⟨(pyWords s.data).intersperse [' '] |>.flatten⟩

/-- sanitize.clip: s[:maxlen]. -/
def clip (s : String) (maxlen : Nat) : String := ⟨s.data.take maxlen⟩

/-- Tag stripping state machine: drops every <...> run, modelling
bleach.clean(text=s, tags=[], attributes={}, strip=True) on the plain
markup the pipeline meets (HTML entities are left as-is). -/
def stripTagsGo : Bool → List Char → List Char
  | _, [] => []
  | true, c :: cs => if c = '>' then stripTagsGo false cs else stripTagsGo true cs
  | false, c :: cs => if c = '<' then stripTagsGo true cs else c :: stripTagsGo false cs

/-- sanitize.clean_html on a present string: `if not s: return s`, else
strip tags and normalize whitespace. -/
def cleanHtml (s : String) : String :=
  if s = "" then "" else normalizeWhitespace ⟨stripTagsGo false s.data⟩

/-- Split a character list at the first occurrence of "://", returning
the text before it (the scheme) and the text after it. -/
def schemeSplit : List Char → Option (List Char × List Char)
  | [] => none
  | c :: rest =>
    if c = ':' ∧ rest.take 2 = ['/', '/'] then some ([], rest.drop 2)
    else
      match schemeSplit rest with
      | some (sch, tail) => some (c :: sch, tail)
      | none => none

/-- Python str.rstrip('/') used by crawl on the base url. -/
def rstripSlash (s : String) : String :=
  ⟨(s.data.reverse.dropWhile (fun c => c = '/')).reverse⟩

/-! ## JSON model

The payloads parse_listing reads are JSON values; numbers are modelled as
integers (the pipeline never does arithmetic on them). -/

inductive Json where
  | null : Json
  | bool : Bool → Json
  | num : Int → Json
  | str : String → Json
  | arr : List Json → Json
  | obj : List (String × Json) → Json

/-- Python dict.get(k, dflt) on an object; callers guard isinstance(dict)
before using it (the embedding mirrors each guard at its call site). -/
def Json.get (j : Json) (k : String) (dflt : Json) : Json :=
  match j with
  | .obj kvs =>
    match kvs.find? (fun kv => kv.fst = k) with
    | some kv => kv.snd
    | none => dflt
  | _ => dflt

/-- Python truth-value testing for a JSON value: None, False, 0, "",
empty list and empty dict are falsy. -/
def Json.falsy (j : Json) : Bool :=
  match j with
  | .null => true
  | .bool b => !b
  | .num n => n = 0
  | .str s => s = ""
  | .arr xs => xs.isEmpty
  | .obj kvs => kvs.isEmpty

/-- Whether the value is a JSON object (Python dict). -/
def Json.isObj (j : Json) : Bool :=
  match j with
  | .obj _ => true
  | _ => false

/-- Whether the value is a JSON string (Python str). -/
def Json.isStr (j : Json) : Bool :=
  match j with
  | .str _ => true
  | _ => false

/-! ## Datetime model

Python datetimes are modelled as a count of seconds together with an
awareness flag.  For aware values `secs` is the UTC instant; for naive
values it is the local wall-clock count.  The origin is 0001-01-01 in the
proleptic Gregorian calendar; only differences and comparisons matter. -/

structure PyDT where
  secs : Int
  aware : Bool
deriving DecidableEq, Repr

/-- Digit value of a character, when it is a decimal digit. -/
def digitVal (c : Char) : Option Nat :=
  if '0' ≤ c ∧ c ≤ '9' then some (c.toNat - 48) else none

/-- Whether the year is a Gregorian leap year. -/
def isLeap (y : Nat) : Bool :=
  (y % 4 = 0 && y % 100 ≠ 0) || y % 400 = 0

/-- Number of days in the given month of the given year. -/
def daysInMonth (y m : Nat) : Nat :=
  if m = 2 then (if isLeap y then 29 else 28)
  else if m = 4 ∨ m = 6 ∨ m = 9 ∨ m = 11 then 30
  else 31

/-- Day-of-year offset contributed by the months before month m. -/
def monthOffset (y : Nat) : Nat → Nat
  | 0 => 0
  | m + 1 => if m = 0 then 0 else monthOffset y m + daysInMonth y m

/-- Days elapsed from 0001-01-01 to the given calendar date. -/
def civilDays (y m d : Nat) : Nat :=
  365 * (y - 1) + (y - 1) / 4 + (y - 1) / 400 - (y - 1) / 100
    + monthOffset y m + (d - 1)

/-- Range validity of a calendar date, as datetime.fromisoformat checks. -/
def validYMD (y m d : Nat) : Bool :=
  1 ≤ y && y ≤ 9999 && 1 ≤ m && m ≤ 12 && 1 ≤ d && d ≤ daysInMonth y m

/-- Parse the 10-character YYYY-MM-DD prefix into a civil day count. -/
def parseDate10 (cs : List Char) : Option Nat :=
  match cs with
  | [y1, y2, y3, y4, a, m1, m2, b, d1, d2] =>
    if a = '-' ∧ b = '-' then
      match digitVal y1, digitVal y2, digitVal y3, digitVal y4,
            digitVal m1, digitVal m2, digitVal d1, digitVal d2 with
      | some p, some q, some r, some s, some u, some v, some w, some x =>
        let y := 1000 * p + 100 * q + 10 * r + s
        let mo := 10 * u + v
        let da := 10 * w + x
        if validYMD y mo da then some (civilDays y mo da) else none
      | _, _, _, _, _, _, _, _ => none
    else none
  | _ => none

/-- Parse the utc-offset suffix and finish an aware or naive value.
`base` is the local second count (days * 86400 + time-of-day). -/
def parseOffset (base : Int) (cs : List Char) : Option PyDT :=
  match cs with
  | [] => some ⟨base, false⟩
  | ['Z'] => some ⟨base, true⟩
  | [sg, o1, o2, oc, o3, o4] =>
    if (sg = '+' ∨ sg = '-') ∧ oc = ':' then
      match digitVal o1, digitVal o2, digitVal o3, digitVal o4 with
      | some p, some q, some r, some s =>
        let oh := 10 * p + q
        let om := 10 * r + s
        if oh < 24 ∧ om < 60 then
          let off : Int := oh * 3600 + om * 60
          some ⟨base - (if sg = '+' then off else -off), true⟩
        else none
      | _, _, _, _ => none
    else none
  | _ => none

/-- Parse the HH:MM:SS time-of-day plus optional offset that follows the
date separator. -/
def parseTime (days : Nat) (cs : List Char) : Option PyDT :=
  match cs with
  | h1 :: h2 :: c1 :: m1 :: m2 :: c2 :: s1 :: s2 :: rest =>
    if c1 = ':' ∧ c2 = ':' then
      match digitVal h1, digitVal h2, digitVal m1, digitVal m2,
            digitVal s1, digitVal s2 with
      | some a, some b, some c, some d, some e, some f =>
        let hh := 10 * a + b
        let mi := 10 * c + d
        let ss := 10 * e + f
        if hh < 24 ∧ mi < 60 ∧ ss < 60 then
          parseOffset ((days : Int) * 86400 + (hh * 3600 + mi * 60 + ss : Nat)) rest
        else none
      | _, _, _, _, _, _ => none
    else none
  | _ => none

/-- datetime.fromisoformat (and the pydantic datetime string parser) on
the ISO-8601 fragment the pipeline produces: a YYYY-MM-DD date, then
optionally a 'T' or space separator, HH:MM:SS, and an optional utc offset
(±HH:MM or Z).  Fractional seconds and other ISO variants are outside the
pipeline's inputs and are rejected by the model. -/
def parseDT (cs : List Char) : Option PyDT :=
  match parseDate10 (cs.take 10) with
  | none => none
  | some days =>
    match cs.drop 10 with
    | [] => some ⟨(days : Int) * 86400, false⟩
    | t :: rest => if t = 'T' ∨ t = ' ' then parseTime days rest else none

/-- Comparison `e <= s` between Python datetimes: comparable when both
are naive or both aware; mixing them raises TypeError (modelled none). -/
def pyLE (e s : PyDT) : Option Bool :=
  if e.aware = s.aware then some (e.secs ≤ s.secs) else none

/-! ## schemas.EventCreate

The pydantic model is embedded as a validation function over the keyword
arguments process_and_validate builds.  `none` stands for Python None;
`some j` for a present JSON-shaped value.  Field constraints declared via
Field(...) run before the custom field validators, fields are processed in
declaration order, and errors are collected across fields, as pydantic v2
does. -/

/-- The allowed-title character class of the (unused) SAFE_TITLE regex
r"^[a-zA-Z0-9\s\-\.,'()&!?:\"“”%+/#]{1,100}$" in schemas.py. -/
def allowedTitleChar (c : Char) : Bool :=
  ('a' ≤ c && c ≤ 'z') || ('A' ≤ c && c ≤ 'Z') || ('0' ≤ c && c ≤ '9')
    || pySpace c
    || c = '-' || c = '.' || c = ',' || c = '\'' || c = '(' || c = ')'
    || c = '&' || c = '!' || c = '?' || c = ':' || c = '"' || c = '“'
    || c = '”' || c = '%' || c = '+' || c = '/' || c = '#'

/-- The title field: Field("", min_length=1, max_length=100) over the raw
string, then the title_chars validator (strip; reject empty, length > 100,
or any angle bracket).  A None input is not a valid str. -/
def titleField : Option String → Except String String
  | none => .error "title: Input should be a valid string"
  | some raw =>
    if raw.data.length < 1 then .error "title: String should have at least 1 character"
    else if raw.data.length > 100 then .error "title: String should have at most 100 characters"
    else if stripList raw.data = [] then .error "title: Title must not be empty"
    else if (stripList raw.data).length > 100 then .error "title: Title too long"
    else if '<' ∈ stripList raw.data ∨ '>' ∈ stripList raw.data then
      .error "title: Title contains invalid characters."
    else .ok ⟨stripList raw.data⟩

/-- description: str = Field("", max_length=1000).  None is rejected. -/
def descriptionField : Option String → Except String String
  | none => .error "description: Input should be a valid string"
  | some s =>
    if s.data.length > 1000 then .error "description: String should have at most 1000 characters"
    else .ok s

/-- A required datetime field.  pydantic parses an ISO string, accepts an
int as a unix-epoch timestamp (aware UTC; shifted to the civil-day scale
of this model), and rejects None and other shapes. -/
def datetimeField (name : String) : Option Json → Except String PyDT
  | none => .error (name ++ ": Input should be a valid datetime")
  | some (.str s) =>
    match parseDT s.data with
    | some dt => .ok dt
    | none => .error (name ++ ": Input should be a valid datetime")
  | some (.num n) => .ok ⟨(719162 : Int) * 86400 + n, true⟩
  | some _ => .error (name ++ ": Input should be a valid datetime")

/-- The ends_after_start validator: runs only when start_at validated
successfully; `if start_at and v <= start_at` (datetimes are always
truthy; comparing naive with aware raises TypeError, which also fails the
model construction). -/
def endsAfterStart (sR : Except String PyDT) (eR : Except String PyDT) :
    Except String PyDT :=
  match sR, eR with
  | .ok s, .ok e =>
    match pyLE e s with
    | none => .error "ends_at: TypeError comparing naive and aware datetimes"
    | some true => .error "Event end time must be after start time."
    | some false => .ok e
  | _, r => r

/-- An optional plain-str field with a max length (location, address).
None is NOT substituted by the declared default in pydantic v2, so it is
rejected as not a valid string. -/
def strField (name : String) (maxLen : Nat) : Option Json → Except String String
  | none => .error (name ++ ": Input should be a valid string")
  | some (.str s) =>
    if s.data.length > maxLen then .error (name ++ ": String should have at most max_length characters")
    else .ok s
  | some _ => .error (name ++ ": Input should be a valid string")

/-- Validity of a URL string for AnyUrl: a nonempty scheme, the ://
separator, and a nonempty remainder.  Modelled from pydantic's AnyUrl on
the absolute http(s) URLs the pipeline produces. -/
def validUrl (s : String) : Bool :=
  match schemeSplit s.data with
  | some (sch, rest) => sch ≠ [] && rest ≠ []
  | none => false

/-- website / image: AnyUrl | None = None. -/
def urlField (name : String) : Option Json → Except String (Option String)
  | none => .ok none
  | some (.str s) => if validUrl s then .ok (some s) else .error (name ++ ": Input should be a valid URL")
  | some _ => .error (name ++ ": URL input should be a string or URL")

/-- The keyword arguments process_and_validate passes to EventCreate. -/
structure EventInput where
  title : Option String
  description : Option String
  start_at : Option Json
  ends_at : Option Json
  location : Option Json
  address : Option Json
  website : Option Json
  latitude : Option String
  longitude : Option String
  image : Option Json

/-- A successfully validated EventCreate instance. -/
structure EventRecord where
  title : String
  description : String
  start_at : PyDT
  ends_at : PyDT
  location : String
  address : String
  website : Option String
  latitude : Option String
  longitude : Option String
  image : Option String
deriving DecidableEq, Repr

/-- The error list of a field result. -/
def errsOf {α : Type} (r : Except String α) : List String :=
  match r with
  | .ok _ => []
  | .error e => [e]

/-- EventCreate(**validated_input): validate every field in declaration
order, run ends_after_start on the ends_at value, and succeed exactly when
no field produced an error.  latitude/longitude are float | None and the
coerced values process_and_validate passes always satisfy that. -/
def eventCreate (i : EventInput) : Except (List String) EventRecord :=
  let tR := titleField i.title
  let dR := descriptionField i.description
  let sR := datetimeField "start_at" i.start_at
  let eR := endsAfterStart sR (datetimeField "ends_at" i.ends_at)
  let lR := strField "location" 200 i.location
  let aR := strField "address" 100 i.address
  let wR := urlField "website" i.website
  let iR := urlField "image" i.image
  match tR, dR, sR, eR, lR, aR, wR, iR with
  | .ok t, .ok d, .ok s, .ok e, .ok l, .ok a, .ok w, .ok im =>
    .ok ⟨t, d, s, e, l, a, w, i.latitude, i.longitude, im⟩
  | _, _, _, _, _, _, _, _ =>
    .error (errsOf tR ++ errsOf dR ++ errsOf sR ++ errsOf eR ++ errsOf lR
      ++ errsOf aR ++ errsOf wR ++ errsOf iR)

/-! ## urllib.parse.urljoin (library model)

Modelled from the documented behavior of urllib.parse.urljoin on the
inputs the scraper produces: a falsy url returns the base unchanged, a url
carrying its own scheme is returned as-is, a scheme-relative //url adopts
the base's scheme, an absolute path is joined to the base's origin, and a
relative path replaces the last segment of the base's path. -/

/-- Whether the string starts with scheme:// for a nonempty scheme. -/
def hasScheme (s : String) : Bool :=
  match schemeSplit s.data with
  | some (sch, _) => sch ≠ []
  | none => false

/-- scheme://authority part of an absolute URL. -/
def originOf (s : String) : String :=
  match schemeSplit s.data with
  | some (sch, tail) =>
    ⟨sch ++ ':' :: '/' :: '/' :: tail.takeWhile (fun c => c ≠ '/')⟩
  | none => s

/-- base with its last path segment removed (directory of the base). -/
def dirOf (s : String) : String :=
  match schemeSplit s.data with
  | some (sch, tail) =>
    if '/' ∈ tail then
      ⟨sch ++ ':' :: '/' :: '/' :: (tail.reverse.dropWhile (fun c => c ≠ '/')).tail.reverse⟩
    else ⟨sch ++ ':' :: '/' :: '/' :: tail⟩
  | none => s

/-- urllib.parse.urljoin on string arguments. -/
def urljoin (base url : String) : String :=
  if base = "" then url
  else if url = "" then base
  else if hasScheme url then url
  else if url.data.take 2 = ['/', '/'] then
    match schemeSplit base.data with
    | some (sch, _) => ⟨sch ++ ':' :: url.data⟩
    | none => url
  else if url.data.take 1 = ['/'] then originOf base ++ url
  else dirOf base ++ "/" ++ url

/-- urljoin(base_url, raw_link) as parse_listing calls it: a falsy
raw_link (None, "", 0, False, [], {}) returns the base; a truthy string is
joined; a truthy non-string raises TypeError, which nothing in
parse_listing catches. -/
def urljoinJ (base : String) (u : Json) : Except Unit String :=
  if u.falsy then .ok base
  else match u with
    | .str s => .ok (urljoin base s)
    | _ => .error ()

/-! ## scraper.parse_listing -/

/-- One script tag of type application/ld+json: an empty tag
(script_tag.string is None), a tag whose text fails json.loads, or a
parsed JSON payload. -/
inductive Block where
  | empty : Block
  | malformed : Block
  | parsed : Json → Block

/-- Normalize data: a list of dicts is taken as-is, a single dict becomes
a one-element list, any other payload yields no events. -/
def eventsOf (j : Json) : List Json :=
  match j with
  | .arr xs => xs
  | .obj kvs => [.obj kvs]
  | _ => []

/-- Python `isinstance(event, dict) and event.get("@type") == "Event"`. -/
def isEventObj (j : Json) : Bool :=
  match j with
  | .obj _ =>
    match j.get "@type" .null with
    | .str s => s = "Event"
    | _ => false
  | _ => false

/-- The raw row parse_listing appends per Event object.  All ten keys are
always present; values are the JSON values found (website is the joined
string). -/
structure RawEvent where
  title : Json
  start_at : Json
  ends_at : Json
  location : Json
  address : Json
  latitude : Json
  longitude : Json
  description : Json
  image : Json
  website : String

/-- Field extraction for one Event object.  loc_name/address/latitude/
longitude start as ""; name/address are read only under the
isinstance(location, dict) guard, but `location.get("geo", {})` is
evaluated unguarded, so a present non-dict location raises AttributeError
(error).  A truthy non-string url raises TypeError inside urljoin. -/
def extractEvent (base : String) (e : Json) : Except Unit RawEvent := do
  let title := e.get "name" (.str "")
  let start_at := e.get "startDate" (.str "")
  let ends_at := e.get "endDate" (.str "")
  let website ← urljoinJ base (e.get "url" (.str ""))
  let description := e.get "description" (.str "")
  let image := e.get "image" (.str "")
  let location := e.get "location" (.obj [])
  let locName := if location.isObj then location.get "name" (.str "") else .str ""
  let address := if location.isObj then location.get "address" (.str "") else .str ""
  if location.isObj then
    let geo := location.get "geo" (.obj [])
    let latitude := if geo.isObj then geo.get "latitude" (.str "") else .str ""
    let longitude := if geo.isObj then geo.get "longitude" (.str "") else .str ""
    pure ⟨title, start_at, ends_at, locName, address, latitude, longitude,
      description, image, website⟩
  else .error ()

/-- One step of the per-event loop: Event-typed dicts are extracted and
appended, everything else is skipped. -/
def extractStep (base : String) (acc : List RawEvent) (e : Json) :
    Except Unit (List RawEvent) :=
  if isEventObj e then do
    let r ← extractEvent base e
    pure (acc ++ [r])
  else pure acc

/-- Rows contributed by one script block: empty and malformed blocks are
skipped (json.JSONDecodeError is swallowed), Event-typed objects of a
parsed block are extracted in order, everything else is ignored. -/
def extractBlock (base : String) (b : Block) : Except Unit (List RawEvent) :=
  match b with
  | .empty => .ok []
  | .malformed => .ok []
  | .parsed j => (eventsOf j).foldlM (extractStep base) []

/-- One step of the per-block loop. -/
def listingStep (base : String) (acc : List RawEvent) (b : Block) :
    Except Unit (List RawEvent) := do
  let rs ← extractBlock base b
  pure (acc ++ rs)

/-- parse_listing over the document's application/ld+json blocks.  An
uncaught exception from any block (error) aborts the whole call. -/
def parseListing (blocks : List Block) (base : String) :
    Except Unit (List RawEvent) :=
  blocks.foldlM (listingStep base) []

/-! ## scraper.process_and_validate and sanitize.is_future_event -/

/-- normalize_whitespace applied to an arbitrary value, as Python runs
it: None passes through, a str is normalized, any other value raises
TypeError inside unicodedata.normalize. -/
def pyNormWs (j : Json) : Except Unit (Option String) :=
  match j with
  | .null => .ok none
  | .str s => .ok (some (normalizeWhitespace s))
  | _ => .error ()

/-- The description chain clean_html → clip 1000 → normalize_whitespace
applied to the raw value: clean_html returns a falsy input unchanged, so
None flows through clip/normalize to None; a str is cleaned; any other
value raises TypeError (in bleach.clean for truthy values, in clip for
falsy non-None ones). -/
def descriptionChain (j : Json) : Except Unit (Option String) :=
  match j with
  | .null => .ok none
  | .str s => .ok (some (normalizeWhitespace (clip (cleanHtml s) 1000)))
  | _ => .error ()

/-- `x or None`: a falsy value becomes None, anything else is kept. -/
def orNone (j : Json) : Option Json :=
  if j.falsy then none else some j

/-- The bare-date expansion: a str of length 10 gets the fixed suffix. -/
def expandEnds (j : Json) : Json :=
  match j with
  | .str s => if s.data.length = 10 then .str (s ++ "T23:59:59-08:00") else .str s
  | _ => j

/-- The bare-date expansion for start_at (start-of-day suffix). -/
def expandStart (j : Json) : Json :=
  match j with
  | .str s => if s.data.length = 10 then .str (s ++ "T00:00:00-08:00") else .str s
  | _ => j

/-- Python float(str(x)) acceptance, modelled for plain decimal literals
(optional sign, digits, optional fractional part); the pipeline's
coordinate strings are of this shape or empty. -/
def pyFloatLit (s : String) : Bool :=
  let t := stripList s.data
  let t := match t with
    | '+' :: u => u
    | '-' :: u => u
    | u => u
  match t.span (fun c => c.isDigit) with
  | (ds, []) => ds ≠ []
  | (ds, '.' :: fs) => (ds ≠ [] ∨ fs ≠ []) && fs.all (fun c => c.isDigit)
  | _ => false

/-- The latitude/longitude coercion loop: None or "" becomes None, a
numeric value is kept, a string is kept when float() accepts it, anything
else degrades to None (ValueError/TypeError are caught). -/
def coordField (j : Json) : Option String :=
  match j with
  | .null => none
  | .str s => if s = "" then none else (if pyFloatLit s then some s else none)
  | .num n => some (toString n)
  | .bool _ => none
  | _ => none

/-- The location/address loop: a str is whitespace-normalized and an
empty result becomes None; a non-str value is passed through unchanged
(None stays None). -/
def locField (j : Json) : Option Json :=
  match j with
  | .str s =>
    let c := normalizeWhitespace s
    if c = "" then none else some (.str c)
  | .null => none
  | other => some other

/-- process_and_validate: build validated_input from the raw row exactly
as scraper.py does, call EventCreate, and map any ValidationError /
ValueError / TypeError to None. -/
def processAndValidate (e : RawEvent) : Option EventRecord :=
  match descriptionChain e.description, pyNormWs e.title with
  | .ok finalDescription, .ok finalTitle =>
    let input : EventInput :=
      { title := finalTitle
        description := finalDescription
        start_at := orNone (expandStart e.start_at)
        ends_at := orNone (expandEnds e.ends_at)
        location := locField e.location
        address := locField e.address
        website := orNone (.str e.website)
        latitude := coordField e.latitude
        longitude := coordField e.longitude
        image := orNone e.image }
    match eventCreate input with
    | .ok r => some r
    | .error _ => none
  | _, _ => none

/-- sanitize.is_future_event: parse the ISO string, take the UTC calendar
date (a naive value is assumed UTC), and compare with the current UTC
date, passed here as a civil day count.  Empty and unparsable strings
return False. -/
def isFutureEvent (start_at : String) (todayDays : Int) : Bool :=
  if start_at = "" then false
  else match parseDT start_at.data with
    | none => false
    | some dt => dt.secs.fdiv 86400 ≥ todayDays

/-! ## scraper.fetch_html with the tenacity retry decorator -/

/-- Outcome of one requests.get call: a body (HTML, modelled as the
document's script blocks), an HTTP status error raised by
raise_for_status, or a connection error / timeout. -/
inductive FetchOutcome where
  | success : List Block → FetchOutcome
  | httpError : Nat → FetchOutcome
  | netError : FetchOutcome

/-- The Python exceptions the fetch path can raise.  HTTPError and
ConnectionError are subclasses of requests.RequestException; tenacity's
RetryError is not. -/
inductive PyExc where
  | httpError : Nat → PyExc
  | connError : PyExc
  | retryError : PyExc → PyExc
deriving DecidableEq, Repr

/-- isinstance(e, requests.RequestException). -/
def isReqExc (e : PyExc) : Bool :=
  match e with
  | .httpError _ => true
  | .connError => true
  | .retryError _ => false

/-- One attempt of the undecorated fetch_html body: requests.get then
raise_for_status. -/
def attemptFetch (server : Nat → FetchOutcome) (k : Nat) :
    Except PyExc (List Block) :=
  match server k with
  | .success h => .ok h
  | .httpError c => .error (.httpError c)
  | .netError => .error .connError

/-- tenacity loop: retry while the raised exception is a
requests.RequestException and fuel remains; at exhaustion raise
RetryError wrapping the last exception (reraise is left False); a
non-retryable exception is re-raised immediately.  Returns the result and
the number of attempts made. -/
def fetchGo (server : Nat → FetchOutcome) : Nat → Nat →
    Except PyExc (List Block) × Nat
  | k, 0 =>
    match attemptFetch server k with
    | .ok h => (.ok h, k)
    | .error e =>
      if isReqExc e then (.error (.retryError e), k) else (.error e, k)
  | k, fuel + 1 =>
    match attemptFetch server k with
    | .ok h => (.ok h, k)
    | .error e =>
      if isReqExc e then fetchGo server (k + 1) fuel else (.error e, k)

/-- fetch_html decorated with stop_after_attempt(5): attempts are
numbered 1..5. -/
def fetchHtmlRetry (server : Nat → FetchOutcome) :
    Except PyExc (List Block) × Nat :=
  fetchGo server 1 4

/-! ## scraper.crawl -/

/-- How the crawl loop ended.  done404 is the `except HTTPError` 404
break, doneEmpty the empty-page break, doneMaxPages the loop bound,
abortedFatalNet the outer `except requests.RequestException` handler, and
abortedUnexpected the outer `except Exception` handler. -/
inductive CrawlTerm where
  | done404 : CrawlTerm
  | doneEmpty : CrawlTerm
  | doneMaxPages : CrawlTerm
  | abortedFatalNet : CrawlTerm
  | abortedUnexpected : CrawlTerm
deriving DecidableEq, Repr

/-- Result of a crawl: how it ended, and the rows written to the CSV
(none when validated_events stayed empty and no file is written). -/
structure CrawlResult where
  termination : CrawlTerm
  persisted : Option (List EventRecord)
deriving DecidableEq, Repr

/-- MAX_PAGES from scraper.py. -/
def MAX_PAGES : Nat := 10

/-- Build the page URL: the base for page 1, base/calendar/n after. -/
def pageUrl (base : String) (n : Nat) : String :=
  if n = 1 then base else base ++ "/calendar/" ++ toString n

/-- The body of the crawl loop from page n with the events accumulated so
far.  Exceptions escaping fetch_html hit `except HTTPError` first (404
breaks, other codes re-raise) and otherwise propagate to the outer
handlers; exceptions from parse_listing reach `except Exception`. -/
def crawlLoop (server : Nat → Nat → FetchOutcome) (base : String) :
    List Nat → List EventRecord → CrawlTerm × List EventRecord
  | [], acc => (.doneMaxPages, acc)
  | n :: pages, acc =>
    match (fetchHtmlRetry (server n)).1 with
    | .error (.httpError 404) => (.done404, acc)
    | .error (.httpError _) => (.abortedFatalNet, acc)
    | .error .connError => (.abortedFatalNet, acc)
    | .error (.retryError _) => (.abortedUnexpected, acc)
    | .ok html =>
      match parseListing html (pageUrl base n) with
      | .error _ => (.abortedUnexpected, acc)
      | .ok events =>
        if events.isEmpty then (.doneEmpty, acc)
        else crawlLoop server base pages
          (acc ++ events.filterMap processAndValidate)

/-- crawl(url, out_csv): run the page loop over pages 1..MAX_PAGES and
write the CSV only when some events were validated. -/
def crawl (server : Nat → Nat → FetchOutcome) (url : String) : CrawlResult :=
  let base := rstripSlash url
  let (term, acc) := crawlLoop server base (List.range' 1 MAX_PAGES) []
  ⟨term, if acc.isEmpty then none else some acc⟩

/-! ## sanitize.duplicate_check -/

/-- The storage state visible to the Duplicate Filter: the titles of the
persisted Event rows. -/
abbrev DbState := List String

/-- duplicate_check.get_duplicate_events: empty input short-circuits to
the empty set; otherwise the candidate titles are stripped (dropping
falsy entries) and one batched query returns the persisted titles among
them.  The result models the returned set as a deduplicated list. -/
def getDuplicateEvents (db : DbState) (titles : List String) : List String :=
  if titles.isEmpty then []
  else (db.filter (fun t => t ∈ (titles.filter (fun s => s ≠ "")).map pyStrip)).dedup

/-- get_duplicate_events with the storage state passed explicitly: the
function only issues a SELECT, so the state comes back unchanged. -/
def getDuplicateEventsSt (db : DbState) (titles : List String) :
    List String × DbState :=
  (getDuplicateEvents db titles, db)

/-- The non-empty path of filter_duplicate_events: collect the truthy
titles, query once, and keep the rows whose stripped title is not among
the duplicates (rows with falsy titles are dropped by the final
condition).  Rows are represented by their title string. -/
def dupFilterCore (db : DbState) (events : List String) : List String :=
  events.filter (fun t =>
    t ≠ "" && pyStrip t ∉ getDuplicateEvents db (events.filter (fun s => s ≠ "")))

/-- duplicate_check.filter_duplicate_events: empty input short-circuits,
otherwise the core filter runs. -/
def filterDuplicateEvents (db : DbState) (events : List String) :
    List String :=
  if events.isEmpty then [] else dupFilterCore db events

/-! ## Concrete fixtures and derived predicates used by the claims -/

/-- An Event object present in a parsed block is extracted without an
exception exactly when its location value, when present, is a dict and
its url value is falsy or a string. -/
def locOk (e : Json) : Bool := (e.get "location" (.obj [])).isObj

/-- Whether urljoin on the object's url value cannot raise. -/
def urlOk (e : Json) : Bool :=
  let u := e.get "url" (.str "")
  u.falsy || u.isStr

/-- Well-formedness of one script block for exception-free extraction. -/
def wfBlock (b : Block) : Bool :=
  match b with
  | .parsed j => (eventsOf j).all (fun e => !isEventObj e || (locOk e && urlOk e))
  | _ => true

/-- Number of Event-typed objects in one block. -/
def countBlock (b : Block) : Nat :=
  match b with
  | .parsed j => ((eventsOf j).filter isEventObj).length
  | _ => 0

/-- Number of Event-typed objects over all parsed blocks. -/
def countEvents (blocks : List Block) : Nat :=
  (blocks.map countBlock).sum

/-- EventCreate keyword arguments that are valid in every field except
possibly the temporal ordering, with the given start/end strings. -/
def mkTemporalInput (st en : String) : EventInput :=
  { title := some "Valid Title"
    description := some ""
    start_at := some (.str st)
    ends_at := some (.str en)
    location := some (.str "Hall")
    address := some (.str "1 Main St")
    website := none
    latitude := none
    longitude := none
    image := none }

/-- The key/value pairs of a schema.org Event object of the vendor's
nested-location shape with a valid future date range and an empty url. -/
def goodKvs : List (String × Json) :=
  [("@context", .str "https://schema.org"),
   ("@type", .str "Event"),
   ("name", .str "Spring Fair"),
   ("startDate", .str "2099-05-01T10:00:00-08:00"),
   ("endDate", .str "2099-05-01T12:00:00-08:00"),
   ("url", .str ""),
   ("location", .obj [("name", .str "Hall"), ("address", .str "1 Main St")])]

/-- The Event object built from goodKvs. -/
def goodObj : Json := .obj goodKvs

/-- A raw row whose start date (2020) lies strictly before the current
UTC date but which is valid in every schema field. -/
def pastRec : RawEvent :=
  ⟨.str "Old Event", .str "2020-01-01T10:00:00-08:00",
   .str "2020-01-01T12:00:00-08:00", .str "Hall", .str "1 St",
   .str "", .str "", .str "", .str "", ""⟩

/-- A raw row that is valid in every field except that its location is
the empty string. -/
def emptyLocRec : RawEvent :=
  ⟨.str "New Event", .str "2099-01-01T10:00:00-08:00",
   .str "2099-01-01T12:00:00-08:00", .str "", .str "1 St",
   .str "", .str "", .str "", .str "", ""⟩

/-- A raw row that is valid in every field except that its address is
whitespace only. -/
def emptyAddrRec : RawEvent :=
  ⟨.str "New Event", .str "2099-01-01T10:00:00-08:00",
   .str "2099-01-01T12:00:00-08:00", .str "Hall", .str "  ",
   .str "", .str "", .str "", .str "", ""⟩

/-- The same row as emptyLocRec with a nonempty location and address. -/
def filledLocRec : RawEvent :=
  ⟨.str "New Event", .str "2099-01-01T10:00:00-08:00",
   .str "2099-01-01T12:00:00-08:00", .str "Hall", .str "1 St",
   .str "", .str "", .str "", .str "", ""⟩

/-- A server whose every page answers HTTP 404 on every attempt. -/
def srv404 : Nat → FetchOutcome := fun _ => .httpError 404

/-- A crawl scenario: page 1 serves one valid Event block, every later
page answers HTTP 404 on every attempt. -/
def srvC5 : Nat → Nat → FetchOutcome :=
  fun page _ => if page = 1 then .success [.parsed goodObj] else .httpError 404

/-- A single Event-typed block whose location is a bare string, as
schema.org permits. -/
def strLocBlock : Block :=
  .parsed (.obj [("@type", .str "Event"), ("name", .str "Talk"),
                 ("location", .str "Room 5")])

/-! ## Claim theorems -/

/-- C1 counterexample: against a server that answers HTTP 404 on every
attempt, fetch_html makes 5 attempts — it retries the non-retryable HTTP
client error, because HTTPError is a requests.RequestException — and the
caller receives a tenacity RetryError, not the bare HTTPError; the claim
asserts no retry happens on such a status (one attempt). -/
theorem C1_counterexample :
    fetchHtmlRetry srv404 = (.error (.retryError (.httpError 404)), 5) ∧
    (fetchHtmlRetry srv404).2 ≠ 1 := by
  exact ⟨rfl, by decide⟩

/-- C1 amended: fetch_html retries on every requests.RequestException —
including HTTP status errors raised by raise_for_status — with total
attempts bounded by 5; a transient failure followed by success is retried
to success, and when all 5 attempts raise request-level exceptions the
failure is surfaced to the caller as a RetryError. -/
theorem C1_amended_retry :
    (∀ server : Nat → FetchOutcome, (fetchHtmlRetry server).2 ≤ 5) ∧
    (∀ (server : Nat → FetchOutcome) (c : Nat) (h : List Block),
      server 1 = .httpError c → server 2 = .success h →
      fetchHtmlRetry server = (.ok h, 2)) ∧
    (∀ server : Nat → FetchOutcome,
      (∀ k, 1 ≤ k → k ≤ 5 →
        ∃ e, attemptFetch server k = .error e ∧ isReqExc e = true) →
      ∃ e, fetchHtmlRetry server = (.error (.retryError e), 5)) := by
  refine ⟨?_, ?_, ?_⟩
  · have key : ∀ (fuel k : Nat) (server : Nat → FetchOutcome),
        (fetchGo server k fuel).2 ≤ k + fuel := by
      intro fuel
      induction fuel with
      | zero =>
        intro k server
        simp only [fetchGo]
        cases attemptFetch server k with
        | ok h => simp
        | error e => by_cases he : isReqExc e = true <;> simp [he]
      | succ n ih =>
        intro k server
        simp only [fetchGo]
        cases attemptFetch server k with
        | ok h => simp
        | error e =>
          by_cases he : isReqExc e = true
          · have h2 := ih (k + 1) server
            simp only [he, if_true]
            omega
          · simp [he]
    intro server
    have := key 4 1 server
    simpa [fetchHtmlRetry] using this
  · intro server c h h1 h2
    have a1 : attemptFetch server 1 = .error (.httpError c) := by
      simp [attemptFetch, h1]
    have a2 : attemptFetch server 2 = .ok h := by
      simp [attemptFetch, h2]
    simp [fetchHtmlRetry, fetchGo, a1, a2, isReqExc]
  · intro server hall
    obtain ⟨e1, a1, r1⟩ := hall 1 (by omega) (by omega)
    obtain ⟨e2, a2, r2⟩ := hall 2 (by omega) (by omega)
    obtain ⟨e3, a3, r3⟩ := hall 3 (by omega) (by omega)
    obtain ⟨e4, a4, r4⟩ := hall 4 (by omega) (by omega)
    obtain ⟨e5, a5, r5⟩ := hall 5 (by omega) (by omega)
    exact ⟨e5, by simp [fetchHtmlRetry, fetchGo, a1, r1, a2, r2, a3, r3, a4, r4, a5, r5]⟩

/-- C1 witness: the retry bound, retry-then-success, and exhausted-retry
conclusions at concrete servers. -/
theorem C1_witness :
    (fetchHtmlRetry (fun _ => FetchOutcome.netError)).2 ≤ 5 ∧
    fetchHtmlRetry
      (fun k => if k = 1 then FetchOutcome.httpError 500 else FetchOutcome.success [])
      = (.ok [], 2) ∧
    ∃ e, fetchHtmlRetry (fun _ => FetchOutcome.netError)
      = (.error (.retryError e), 5) :=
  ⟨C1_amended_retry.1 _,
   C1_amended_retry.2.1 _ 500 [] rfl rfl,
   C1_amended_retry.2.2 _ (fun _ _ _ => ⟨.connError, rfl, rfl⟩)⟩

/-- A character that does not satisfy p survives dropWhile p. -/
theorem mem_dropWhile_of_not {p : Char → Bool} {c : Char} :
    ∀ {cs : List Char}, c ∈ cs → p c = false → c ∈ cs.dropWhile p := by
  intro cs
  induction cs with
  | nil => intro h _ ; exact absurd h (List.not_mem_nil c)
  | cons a t ih =>
    intro hm hp
    rcases List.mem_cons.mp hm with rfl | ht
    · simp [List.dropWhile_cons, hp]
    · by_cases ha : p a = true
      · simpa [List.dropWhile_cons, ha] using ih ht hp
      · simp [List.dropWhile_cons, ha, ht]

/-- A non-whitespace character of cs survives Python strip. -/
theorem mem_stripList {c : Char} {cs : List Char} (h : c ∈ cs)
    (hp : pySpace c = false) : c ∈ stripList cs := by
  unfold stripList
  rw [List.mem_reverse]
  refine mem_dropWhile_of_not ?_ hp
  rw [List.mem_reverse]
  exact mem_dropWhile_of_not h hp

/-- Python strip returns a sublist of its input. -/
theorem stripList_sublist (cs : List Char) : List.Sublist (stripList cs) cs := by
  unfold stripList
  have h2 : List.Sublist ((cs.dropWhile pySpace).reverse.dropWhile pySpace).reverse
      (cs.dropWhile pySpace).reverse.reverse := by
    exact (List.dropWhile_sublist _).reverse
  rw [List.reverse_reverse] at h2
  exact h2.trans (List.dropWhile_sublist _)

/-- C2 counterexample: the title validator accepts "_" although the
underscore is outside the SAFE_TITLE character class (the claim demands
rejection), and it rejects the one-character title " " although it is
built only from the allowed class and has length 1 (the claim demands
acceptance). -/
theorem C2_counterexample :
    titleField (some "_") = .ok "_" ∧
    allowedTitleChar '_' = false ∧
    titleField (some " ") = .error "title: Title must not be empty" ∧
    " ".data.all allowedTitleChar = true ∧ " ".data.length = 1 :=
  ⟨rfl, by decide, rfl, by decide, rfl⟩

/-- C2 amended: EventCreate title validation rejects a title that is
empty after trimming, longer than 100 characters, or containing an angle
bracket; and it accepts every title of length 1-100 built from the
allowed character class that has at least one non-whitespace character
(the full SAFE_TITLE class is not enforced: only angle brackets are). -/
theorem C2_title_validation :
    (∀ s : String, stripList s.data = [] → ∃ e, titleField (some s) = .error e) ∧
    (∀ s : String, s.data.length > 100 → ∃ e, titleField (some s) = .error e) ∧
    (∀ s : String, ('<' ∈ s.data ∨ '>' ∈ s.data) →
      ∃ e, titleField (some s) = .error e) ∧
    (∀ s : String, 1 ≤ s.data.length → s.data.length ≤ 100 →
      (∀ c ∈ s.data, allowedTitleChar c = true) →
      (∃ c ∈ s.data, pySpace c = false) →
      titleField (some s) = .ok (pyStrip s)) := by
  refine ⟨?_, ?_, ?_, ?_⟩
  · intro s h
    simp only [titleField]
    split_ifs
    all_goals exact ⟨_, rfl⟩
  · intro s h
    simp only [titleField]
    split_ifs
    all_goals exact ⟨_, rfl⟩
  · intro s h
    simp only [titleField]
    split_ifs with h1 h2 h3 h4 h5
    · exact ⟨_, rfl⟩
    · exact ⟨_, rfl⟩
    · exact ⟨_, rfl⟩
    · exact ⟨_, rfl⟩
    · exact ⟨_, rfl⟩
    · refine absurd ?_ h5
      rcases h with hlt | hgt
      · exact Or.inl (mem_stripList hlt (by decide))
      · exact Or.inr (mem_stripList hgt (by decide))
  · intro s hlen1 hlen2 hall hnw
    obtain ⟨c, hc, hcp⟩ := hnw
    simp only [titleField]
    split_ifs with h1 h2 h3 h4 h5
    · omega
    · omega
    · exact absurd h3 (List.ne_nil_of_mem (mem_stripList hc hcp))
    · have := (stripList_sublist s.data).length_le
      omega
    · rcases h5 with hlt | hgt
      · have := hall '<' ((stripList_sublist s.data).subset hlt)
        exact absurd this (by decide)
      · have := hall '>' ((stripList_sublist s.data).subset hgt)
        exact absurd this (by decide)
    · rfl

/-- C2 witness: the amended rejection and acceptance conclusions at
concrete titles. -/
theorem C2_witness :
    (∃ e, titleField (some "  ") = .error e) ∧
    (∃ e, titleField (some ⟨List.replicate 101 'a'⟩) = .error e) ∧
    (∃ e, titleField (some "a<b") = .error e) ∧
    titleField (some "Spring Fair 2026") = .ok (pyStrip "Spring Fair 2026") :=
  ⟨C2_title_validation.1 _ (by decide),
   C2_title_validation.2.1 _ (by decide),
   C2_title_validation.2.2.1 _ (by decide),
   C2_title_validation.2.2.2 _ (by decide) (by decide) (by decide) (by decide)⟩

/-- C3, the code bug: process_and_validate applies no recency filter —
a record whose start date 2020-01-01 lies strictly before the current
UTC date (2026-10-12, civil day 739900) is validated and returned rather
than excluded, even though sanitize.is_future_event classifies that very
start string as not-future; the helper is never invoked by the
pipeline. -/
theorem C3_recency_not_enforced :
    (processAndValidate pastRec).isSome = true ∧
    isFutureEvent "2020-01-01T10:00:00-08:00" ((civilDays 2026 10 12 : Nat) : Int)
      = false := by
  exact ⟨rfl, by decide⟩

/-- C4, the code bug: a raw record whose location (or address) is empty
or whitespace-only is mapped to None by the normalization loop, and
EventCreate then rejects None for the plain-str location/address field,
aborting the whole record; the identical record with nonempty location
and address validates. -/
theorem C4_empty_location_aborts :
    processAndValidate emptyLocRec = none ∧
    processAndValidate emptyAddrRec = none ∧
    (processAndValidate filledLocRec).isSome = true :=
  ⟨rfl, rfl, rfl⟩

/-- C5, the code bug: when page 2 answers HTTP 404 (after page 1 yielded
one valid record), the crawl ends through the generic unexpected-error
handler — the `except HTTPError` 404 branch never fires because tenacity
re-raises a RetryError — yet the record accumulated from page 1 is still
persisted to the output. -/
theorem C5_crawl_404 :
    (crawl srvC5 "http://x.edu").termination = CrawlTerm.abortedUnexpected ∧
    (crawl srvC5 "http://x.edu").termination ≠ CrawlTerm.done404 ∧
    ((crawl srvC5 "http://x.edu").persisted.getD []).map (fun r => r.title)
      = ["Spring Fair"] := by
  exact ⟨rfl, by decide, by decide⟩

/-- C6: over inputs whose every other field is valid and whose start and
end strings parse to comparable datetimes, EventCreate rejects with the
temporal-ordering failure exactly when end is not strictly after start,
and accepts (carrying the parsed timestamps) when end is strictly after
start. -/
theorem C6_temporal_ordering :
    ∀ (st en : String) (S E : PyDT),
    parseDT st.data = some S → parseDT en.data = some E → S.aware = E.aware →
    (E.secs ≤ S.secs →
      ∃ errs, eventCreate (mkTemporalInput st en) = .error errs ∧
        "Event end time must be after start time." ∈ errs) ∧
    (S.secs < E.secs →
      ∃ r, eventCreate (mkTemporalInput st en) = .ok r ∧
        r.start_at = S ∧ r.ends_at = E) := by
  intro st en S E hS hE hA
  have hsd : datetimeField "start_at" (some (.str st)) = .ok S := by
    simp [datetimeField, hS]
  have hed : datetimeField "ends_at" (some (.str en)) = .ok E := by
    simp [datetimeField, hE]
  have ht : titleField (some "Valid Title") = .ok "Valid Title" := rfl
  have hd : descriptionField (some "") = .ok "" := rfl
  have hl : strField "location" 200 (some (.str "Hall")) = .ok "Hall" := rfl
  have ha : strField "address" 100 (some (.str "1 Main St")) = .ok "1 Main St" := rfl
  have hw : urlField "website" none = .ok none := rfl
  have hi : urlField "image" none = .ok none := rfl
  constructor
  · intro hle
    have hcmp : endsAfterStart (.ok S) (.ok E) =
        .error "Event end time must be after start time." := by
      simp [endsAfterStart, pyLE, hA, hle]
    refine ⟨["Event end time must be after start time."], ?_, by simp⟩
    simp only [eventCreate, mkTemporalInput, ht, hd, hsd, hed, hcmp, hl, ha, hw, hi]
    rfl
  · intro hlt
    have hcmp : endsAfterStart (.ok S) (.ok E) = .ok E := by
      have : ¬ (E.secs ≤ S.secs) := by omega
      simp [endsAfterStart, pyLE, hA, this]
    refine ⟨⟨"Valid Title", "", S, E, "Hall", "1 Main St", none, none, none, none⟩, ?_, rfl, rfl⟩
    simp only [eventCreate, mkTemporalInput, ht, hd, hsd, hed, hcmp, hl, ha, hw, hi]

/-- C6 witness: the rejection conclusion with end before start, and the
acceptance conclusion with end after start, at concrete timestamps. -/
theorem C6_witness :
    (∃ errs,
      eventCreate (mkTemporalInput "2099-05-01T12:00:00-08:00" "2099-05-01T10:00:00-08:00")
        = .error errs ∧ "Event end time must be after start time." ∈ errs) ∧
    (∃ r,
      eventCreate (mkTemporalInput "2099-05-01T10:00:00-08:00" "2099-05-01T12:00:00-08:00")
        = .ok r ∧ r.start_at = ⟨66216938400, true⟩ ∧ r.ends_at = ⟨66216945600, true⟩) :=
  ⟨(C6_temporal_ordering "2099-05-01T12:00:00-08:00" "2099-05-01T10:00:00-08:00"
      ⟨66216945600, true⟩ ⟨66216938400, true⟩ rfl rfl rfl).1 (by decide),
   (C6_temporal_ordering "2099-05-01T10:00:00-08:00" "2099-05-01T12:00:00-08:00"
      ⟨66216938400, true⟩ ⟨66216945600, true⟩ rfl rfl rfl).2 (by decide)⟩

/-- String append acts as list append on the character data. -/
theorem string_data_append (a b : String) : (a ++ b).data = a.data ++ b.data := rfl

/-- parseDT on a 10-character date followed by a T-separated tail splits
into the date parse and the time parse. -/
theorem parseDT_append10 (cs rest : List Char) (h : cs.length = 10) :
    parseDT (cs ++ 'T' :: rest) =
      (match parseDate10 cs with
       | none => none
       | some days => parseTime days rest) := by
  simp only [parseDT]
  rw [show (cs ++ 'T' :: rest).take 10 = cs from by
        rw [← h]; exact List.take_left cs _,
      show (cs ++ 'T' :: rest).drop 10 = 'T' :: rest from by
        rw [← h]; exact List.drop_left cs _]
  cases parseDate10 cs with
  | none => rfl
  | some days => simp

/-- The time-of-day parse of T00:00:00-08:00's tail. -/
theorem parseTime_startOfDay (days : Nat) :
    parseTime days
      ('0' :: '0' :: ':' :: '0' :: '0' :: ':' :: '0' :: '0' ::
       '-' :: '0' :: '8' :: ':' :: '0' :: '0' :: [])
      = some ⟨(days : Int) * 86400 + 28800, true⟩ := by
  simp [parseTime, parseOffset, digitVal]

/-- The time-of-day parse of T23:59:59-08:00's tail. -/
theorem parseTime_endOfDay (days : Nat) :
    parseTime days
      ('2' :: '3' :: ':' :: '5' :: '9' :: ':' :: '5' :: '9' ::
       '-' :: '0' :: '8' :: ':' :: '0' :: '0' :: [])
      = some ⟨(days : Int) * 86400 + 86399 + 28800, true⟩ := by
  simp [parseTime, parseOffset, digitVal]

/-- C8: for a 10-character date-only string, process_and_validate
expands the start value with the start-of-day suffix and the end value
with the end-of-day suffix, both in the fixed -08:00 offset; whenever
those expanded strings parse, both are aware and the end instant is
strictly after the start instant for the same calendar date. -/
theorem C8_date_only_expansion :
    ∀ (s : String) (S E : PyDT), s.data.length = 10 →
    parseDT (s ++ "T00:00:00-08:00").data = some S →
    parseDT (s ++ "T23:59:59-08:00").data = some E →
    expandStart (.str s) = .str (s ++ "T00:00:00-08:00") ∧
    expandEnds (.str s) = .str (s ++ "T23:59:59-08:00") ∧
    S.aware = true ∧ E.aware = true ∧ S.secs < E.secs := by
  intro s S E hlen hS hE
  rw [string_data_append] at hS hE
  rw [show ("T00:00:00-08:00" : String).data =
      'T' :: '0' :: '0' :: ':' :: '0' :: '0' :: ':' :: '0' :: '0' ::
      '-' :: '0' :: '8' :: ':' :: '0' :: '0' :: [] from rfl] at hS
  rw [show ("T23:59:59-08:00" : String).data =
      'T' :: '2' :: '3' :: ':' :: '5' :: '9' :: ':' :: '5' :: '9' ::
      '-' :: '0' :: '8' :: ':' :: '0' :: '0' :: [] from rfl] at hE
  rw [parseDT_append10 _ _ hlen] at hS hE
  cases hp : parseDate10 s.data with
  | none => rw [hp] at hS; simp at hS
  | some days =>
    rw [hp] at hS hE
    simp only [parseTime_startOfDay] at hS
    simp only [parseTime_endOfDay] at hE
    have hSv : S = ⟨(days : Int) * 86400 + 28800, true⟩ := by
      exact (Option.some.inj hS).symm
    have hEv : E = ⟨(days : Int) * 86400 + 86399 + 28800, true⟩ := by
      exact (Option.some.inj hE).symm
    refine ⟨by simp [expandStart, hlen], by simp [expandEnds, hlen], ?_, ?_, ?_⟩
    · rw [hSv]
    · rw [hEv]
    · rw [hSv, hEv]
      simp only []
      omega

/-- C8 witness: the expansion and ordering conclusions at the concrete
date 2099-05-01. -/
theorem C8_witness :
    expandStart (.str "2099-05-01") = .str ("2099-05-01" ++ "T00:00:00-08:00") ∧
    expandEnds (.str "2099-05-01") = .str ("2099-05-01" ++ "T23:59:59-08:00") ∧
    (⟨66216902400, true⟩ : PyDT).aware = true ∧
    (⟨66216988799, true⟩ : PyDT).aware = true ∧
    (⟨66216902400, true⟩ : PyDT).secs < (⟨66216988799, true⟩ : PyDT).secs :=
  C8_date_only_expansion "2099-05-01" ⟨66216902400, true⟩ ⟨66216988799, true⟩
    rfl rfl rfl

/-- Membership in the batched duplicate query result: exactly the
persisted titles that equal some stripped nonempty candidate. -/
theorem mem_getDuplicateEvents {db : DbState} {ts : List String} {x : String} :
    x ∈ getDuplicateEvents db ts ↔
      x ∈ db ∧ ∃ t ∈ ts, t ≠ "" ∧ x = pyStrip t := by
  unfold getDuplicateEvents
  by_cases h : ts.isEmpty
  · rw [List.isEmpty_iff] at h
    subst h
    simp
  · rw [if_neg (by simpa using h), List.mem_dedup, List.mem_filter]
    simp only [List.mem_map, List.mem_filter, decide_eq_true_eq]
    constructor
    · rintro ⟨hdb, t, ⟨hts, hne⟩, heq⟩
      exact ⟨hdb, t, hts, hne, heq.symm⟩
    · rintro ⟨hdb, t, hts, hne, heq⟩
      exact ⟨hdb, t, ⟨hts, hne⟩, heq.symm⟩

/-- Membership in the core duplicate filter result. -/
theorem mem_dupFilterCore {db : DbState} {evs : List String} {t : String} :
    t ∈ dupFilterCore db evs ↔
      t ∈ evs ∧ t ≠ "" ∧
        pyStrip t ∉ getDuplicateEvents db (evs.filter (fun s => s ≠ "")) := by
  unfold dupFilterCore
  rw [List.mem_filter]
  simp [and_assoc]

/-- The core duplicate filter is idempotent: records that survived one
pass also survive a second pass against the unchanged storage state. -/
theorem dupFilterCore_idem (db : DbState) (evs : List String) :
    dupFilterCore db (dupFilterCore db evs) = dupFilterCore db evs := by
  conv_lhs => rw [dupFilterCore]
  apply List.filter_eq_self.mpr
  intro t ht
  have hmem := mem_dupFilterCore.mp ht
  simp only [Bool.and_eq_true, decide_eq_true_eq]
  refine ⟨hmem.2.1, ?_⟩
  intro hdup
  apply hmem.2.2
  rw [mem_getDuplicateEvents] at hdup
  obtain ⟨hdb, u, huf, hune, hueq⟩ := hdup
  have hu1 := List.mem_filter.mp huf
  have hu2 := mem_dupFilterCore.mp hu1.1
  refine mem_getDuplicateEvents.mpr ⟨hdb, u, ?_, hune, hueq⟩
  exact List.mem_filter.mpr ⟨hu2.1, by simpa using hune⟩

/-- C9: the Duplicate Filter is idempotent and side-effect free — with
the storage state passed explicitly, a second identical run returns the
same result set and leaves the state unchanged; an empty candidate list
yields the empty set; and filter_duplicate_events is idempotent as a
function of the event batch. -/
theorem C9_duplicate_filter :
    (∀ (db : DbState) (ts : List String),
      (getDuplicateEventsSt (getDuplicateEventsSt db ts).2 ts).1
        = (getDuplicateEventsSt db ts).1 ∧
      (getDuplicateEventsSt (getDuplicateEventsSt db ts).2 ts).2 = db) ∧
    (∀ db : DbState,
      getDuplicateEvents db [] = [] ∧ filterDuplicateEvents db [] = []) ∧
    (∀ (db : DbState) (evs : List String),
      filterDuplicateEvents db (filterDuplicateEvents db evs)
        = filterDuplicateEvents db evs) := by
  refine ⟨fun db ts => ⟨rfl, rfl⟩, fun db => ⟨rfl, rfl⟩, ?_⟩
  intro db evs
  by_cases hevs : evs.isEmpty
  · rw [List.isEmpty_iff] at hevs
    subst hevs
    rfl
  · rw [show filterDuplicateEvents db evs = dupFilterCore db evs from
        if_neg (by simpa using hevs)]
    by_cases hFe : (dupFilterCore db evs).isEmpty
    · rw [List.isEmpty_iff] at hFe
      rw [hFe]
      rfl
    · rw [show filterDuplicateEvents db (dupFilterCore db evs)
            = dupFilterCore db (dupFilterCore db evs) from
          if_neg (by simpa using hFe)]
      exact dupFilterCore_idem db evs

/-- A successful schemeSplit reconstructs its input. -/
theorem schemeSplit_reconstruct :
    ∀ {cs sch tl : List Char}, schemeSplit cs = some (sch, tl) →
      cs = sch ++ ':' :: '/' :: '/' :: tl := by
  intro cs
  induction cs with
  | nil => intro sch tl h; simp [schemeSplit] at h
  | cons c rest ih =>
    intro sch tl h
    rw [schemeSplit] at h
    by_cases hc : c = ':' ∧ rest.take 2 = ['/', '/']
    · rw [if_pos hc] at h
      obtain ⟨h1, h2⟩ := Prod.mk.injEq .. ▸ Option.some.inj h
      subst h1
      rw [hc.1, List.nil_append, ← h2]
      have := (List.take_append_drop 2 rest).symm
      rw [hc.2] at this
      exact congrArg (fun l => ':' :: l) this
    · rw [if_neg hc] at h
      cases hs : schemeSplit rest with
      | none => rw [hs] at h; cases h
      | some p =>
        obtain ⟨sch2, tl2⟩ := p
        rw [hs] at h
        obtain ⟨h1, h2⟩ := Prod.mk.injEq .. ▸ Option.some.inj h
        subst h2
        rw [← h1, List.cons_append]
        exact congrArg (fun l => c :: l) (ih hs)

/-- Appending "://" and any tail to a found scheme splits back at that
scheme. -/
theorem schemeSplit_recomb :
    ∀ {cs sch tl : List Char}, schemeSplit cs = some (sch, tl) →
      ∀ t, schemeSplit (sch ++ ':' :: '/' :: '/' :: t) = some (sch, t) := by
  intro cs
  induction cs with
  | nil => intro sch tl h t; simp [schemeSplit] at h
  | cons c rest ih =>
    intro sch tl h t
    rw [schemeSplit] at h
    by_cases hc : c = ':' ∧ rest.take 2 = ['/', '/']
    · rw [if_pos hc] at h
      obtain ⟨h1, _⟩ := Prod.mk.injEq .. ▸ Option.some.inj h
      subst h1
      simp [schemeSplit]
    · rw [if_neg hc] at h
      cases hs : schemeSplit rest with
      | none => rw [hs] at h; cases h
      | some p =>
        obtain ⟨sch2, tl2⟩ := p
        rw [hs] at h
        obtain ⟨h1, _⟩ := Prod.mk.injEq .. ▸ Option.some.inj h
        subst h1
        rw [List.cons_append, schemeSplit]
        have hrest := schemeSplit_reconstruct hs
        have hcond : ¬(c = ':' ∧ (sch2 ++ ':' :: '/' :: '/' :: t).take 2 = ['/', '/']) := by
          rintro ⟨hceq, htake⟩
          apply hc
          refine ⟨hceq, ?_⟩
          rcases sch2 with _ | ⟨a, sch3⟩
          · simp at htake
          · rcases sch3 with _ | ⟨b, sch4⟩
            · simp at htake
            · simp at htake
              rw [hrest]
              simp [htake]
        rw [if_neg hcond, ih hs t]

/-- urljoin keeps an absolute base absolute: every branch of the
resolution carries a scheme when the base does. -/
theorem urljoin_hasScheme (base u : String) (hb : hasScheme base = true) :
    hasScheme (urljoin base u) = true := by
  have hbs : ∃ sch tail, schemeSplit base.data = some (sch, tail) ∧ sch ≠ [] := by
    unfold hasScheme at hb
    cases hs : schemeSplit base.data with
    | none => rw [hs] at hb; cases hb
    | some p =>
      obtain ⟨sch, tail⟩ := p
      rw [hs] at hb
      exact ⟨sch, tail, rfl, by simpa using hb⟩
  obtain ⟨sch, tail, hs, hne⟩ := hbs
  unfold urljoin
  split_ifs with h1 h2 h3 h4 h5
  · subst h1
    simp [schemeSplit] at hs
  · exact hb
  · exact h3
  · simp only [hs]
    unfold hasScheme
    have hu : u.data = '/' :: '/' :: u.data.drop 2 := by
      have := (List.take_append_drop 2 u.data).symm
      rw [h4] at this
      exact this
    rw [show (⟨sch ++ ':' :: u.data⟩ : String).data = sch ++ ':' :: u.data from rfl]
    rw [show sch ++ ':' :: u.data = sch ++ ':' :: '/' :: '/' :: u.data.drop 2 from by
      rw [← hu]]
    rw [schemeSplit_recomb hs (u.data.drop 2)]
    simpa using hne
  · unfold hasScheme originOf
    simp only [hs]
    rw [show ((⟨sch ++ ':' :: '/' :: '/' :: tail.takeWhile (fun c => c ≠ '/')⟩ : String) ++ u).data
        = sch ++ ':' :: '/' :: '/' :: (tail.takeWhile (fun c => c ≠ '/') ++ u.data) from by
      rw [string_data_append]
      simp]
    rw [schemeSplit_recomb hs _]
    simpa using hne
  · unfold hasScheme dirOf
    simp only [hs]
    by_cases hm : '/' ∈ tail
    · rw [if_pos hm]
      rw [show ((⟨sch ++ ':' :: '/' :: '/' :: (tail.reverse.dropWhile (fun c => c ≠ '/')).tail.reverse⟩ : String) ++ "/" ++ u).data
          = sch ++ ':' :: '/' :: '/' :: ((tail.reverse.dropWhile (fun c => c ≠ '/')).tail.reverse ++ '/' :: u.data) from by
        rw [string_data_append, string_data_append]
        simp]
      rw [schemeSplit_recomb hs _]
      simpa using hne
    · rw [if_neg hm]
      rw [show ((⟨sch ++ ':' :: '/' :: '/' :: tail⟩ : String) ++ "/" ++ u).data
          = sch ++ ':' :: '/' :: '/' :: (tail ++ '/' :: u.data) from by
        rw [string_data_append, string_data_append]
        simp]
      rw [schemeSplit_recomb hs _]
      simpa using hne

/-- A successful urljoinJ returns the base (falsy url) or a join. -/
theorem urljoinJ_ok {base : String} {u : Json} {w : String}
    (h : urljoinJ base u = .ok w) : w = base ∨ ∃ s, w = urljoin base s := by
  unfold urljoinJ at h
  by_cases hf : u.falsy = true
  · rw [if_pos hf] at h
    exact Or.inl (Except.ok.inj h).symm
  · rw [if_neg hf] at h
    cases u with
    | str s => exact Or.inr ⟨s, (Except.ok.inj h).symm⟩
    | null => cases h
    | bool b => cases h
    | num n => cases h
    | arr xs => cases h
    | obj kvs => cases h

/-- An extraction-safe Event object yields a record. -/
theorem extractEvent_ok_of (base : String) {e : Json}
    (hl : locOk e = true) (hu : urlOk e = true) :
    ∃ r, extractEvent base e = .ok r := by
  unfold extractEvent
  have hj : ∃ w, urljoinJ base (e.get "url" (.str "")) = .ok w := by
    unfold urlOk at hu
    rcases Bool.or_eq_true .. ▸ hu with hf | hstr
    · exact ⟨base, by simp [urljoinJ, hf]⟩
    · cases hju : e.get "url" (.str "") with
      | str s =>
        by_cases hf : (Json.str s).falsy = true
        · exact ⟨base, by simp [urljoinJ, hju, hf]⟩
        · exact ⟨urljoin base s, by simp [urljoinJ, hf]⟩
      | null => rw [hju] at hstr; cases hstr
      | bool b => rw [hju] at hstr; cases hstr
      | num n => rw [hju] at hstr; cases hstr
      | arr xs => rw [hju] at hstr; cases hstr
      | obj kvs => rw [hju] at hstr; cases hstr
  obtain ⟨w, hw⟩ := hj
  rw [hw]
  unfold locOk at hl
  simp only [hl, eq_self_iff_true, if_true]
  exact ⟨_, rfl⟩

/-- The website of every extracted record is the base itself or a join
against the base. -/
theorem extractEvent_website {base : String} {e : Json} {r : RawEvent}
    (h : extractEvent base e = .ok r) :
    r.website = base ∨ ∃ s, r.website = urljoin base s := by
  unfold extractEvent at h
  cases hj : urljoinJ base (e.get "url" (.str "")) with
  | error x => rw [hj] at h; cases h
  | ok w =>
    rw [hj] at h
    have hw := urljoinJ_ok hj
    by_cases hl : (e.get "location" (.obj [])).isObj = true
    · simp only [hl, if_true] at h
      have := Except.ok.inj h
      rw [← this]
      exact hw
    · simp only [hl, if_false] at h
      cases h

/-- Length and success of the per-event fold over one block's events. -/
theorem extractFold_ok {base : String} :
    ∀ (es : List Json) (acc : List RawEvent),
    (∀ e ∈ es, isEventObj e = true → locOk e = true ∧ urlOk e = true) →
    ∃ rs, es.foldlM (extractStep base) acc = .ok rs ∧
      rs.length = acc.length + (es.filter isEventObj).length := by
  intro es
  induction es with
  | nil => intro acc _ ; exact ⟨acc, rfl, by simp⟩
  | cons e es ih =>
    intro acc h
    rw [List.foldlM_cons]
    by_cases he : isEventObj e = true
    · obtain ⟨hl, hu⟩ := h e (List.mem_cons_self e es) he
      obtain ⟨r, hr⟩ := extractEvent_ok_of base hl hu
      have hstep : extractStep base acc e = .ok (acc ++ [r]) := by
        unfold extractStep
        rw [if_pos he, hr]
        rfl
      rw [hstep]
      obtain ⟨rs, hrs, hlen⟩ :=
        ih (acc ++ [r]) (fun x hx hex => h x (List.mem_cons_of_mem _ hx) hex)
      refine ⟨rs, hrs, ?_⟩
      rw [hlen]
      simp [he]
      omega
    · have hstep : extractStep base acc e = .ok acc := by
        unfold extractStep
        rw [if_neg he]
        rfl
      rw [hstep]
      obtain ⟨rs, hrs, hlen⟩ :=
        ih acc (fun x hx hex => h x (List.mem_cons_of_mem _ hx) hex)
      refine ⟨rs, hrs, ?_⟩
      rw [hlen]
      simp [he]

/-- Website shape of every record produced by the per-event fold. -/
theorem extractFold_website {base : String} :
    ∀ (es : List Json) (acc rs : List RawEvent),
    es.foldlM (extractStep base) acc = .ok rs →
    (∀ r ∈ acc, r.website = base ∨ ∃ s, r.website = urljoin base s) →
    ∀ r ∈ rs, r.website = base ∨ ∃ s, r.website = urljoin base s := by
  intro es
  induction es with
  | nil =>
    intro acc rs h hacc
    rw [List.foldlM_nil] at h
    have := Except.ok.inj h
    subst this
    exact hacc
  | cons e es ih =>
    intro acc rs h hacc
    rw [List.foldlM_cons] at h
    cases hs : extractStep base acc e with
    | error x => rw [hs] at h; cases h
    | ok acc2 =>
      rw [hs] at h
      refine ih acc2 rs h ?_
      intro r hr
      unfold extractStep at hs
      by_cases he : isEventObj e = true
      · rw [if_pos he] at hs
        cases hx : extractEvent base e with
        | error x => rw [hx] at hs; cases hs
        | ok r0 =>
          rw [hx] at hs
          have : acc ++ [r0] = acc2 := Except.ok.inj hs
          subst this
          rcases List.mem_append.mp hr with hin | hsing
          · exact hacc r hin
          · rw [List.mem_singleton.mp hsing]
            exact extractEvent_website hx
      · rw [if_neg he] at hs
        have : acc = acc2 := Except.ok.inj hs
        subst this
        exact hacc r hr

/-- Length and success of the per-block fold for well-formed blocks. -/
theorem listingFold_ok {base : String} :
    ∀ (bs : List Block) (acc : List RawEvent),
    (∀ b ∈ bs, wfBlock b = true) →
    ∃ rs, bs.foldlM (listingStep base) acc = .ok rs ∧
      rs.length = acc.length + countEvents bs := by
  intro bs
  induction bs with
  | nil => intro acc _ ; exact ⟨acc, rfl, by simp [countEvents]⟩
  | cons b bs ih =>
    intro acc h
    rw [List.foldlM_cons]
    have hbl : ∃ bl, extractBlock base b = .ok bl ∧ bl.length = countBlock b := by
      cases b with
      | empty => exact ⟨[], rfl, rfl⟩
      | malformed => exact ⟨[], rfl, rfl⟩
      | parsed j =>
        have hwf : ∀ e ∈ eventsOf j, isEventObj e = true →
            locOk e = true ∧ urlOk e = true := by
          intro e he hev
          have hb := h (.parsed j) (List.mem_cons_self _ _)
          rw [wfBlock, List.all_eq_true] at hb
          have := hb e he
          rw [hev] at this
          simpa using this
        obtain ⟨rs0, h0, hlen0⟩ := extractFold_ok (eventsOf j) [] hwf
        exact ⟨rs0, h0, by simpa [countBlock] using hlen0⟩
    obtain ⟨bl, hblv, hbllen⟩ := hbl
    have hstep : listingStep base acc b = .ok (acc ++ bl) := by
      simp [listingStep, hblv]
    rw [hstep]
    obtain ⟨rs, hrs, hlen⟩ :=
      ih (acc ++ bl) (fun x hx => h x (List.mem_cons_of_mem _ hx))
    refine ⟨rs, hrs, ?_⟩
    rw [hlen]
    simp [countEvents, hbllen]
    omega

/-- Website shape of every record produced by the per-block fold. -/
theorem listingFold_website {base : String} :
    ∀ (bs : List Block) (acc rs : List RawEvent),
    bs.foldlM (listingStep base) acc = .ok rs →
    (∀ r ∈ acc, r.website = base ∨ ∃ s, r.website = urljoin base s) →
    ∀ r ∈ rs, r.website = base ∨ ∃ s, r.website = urljoin base s := by
  intro bs
  induction bs with
  | nil =>
    intro acc rs h hacc
    rw [List.foldlM_nil] at h
    have := Except.ok.inj h
    subst this
    exact hacc
  | cons b bs ih =>
    intro acc rs h hacc
    rw [List.foldlM_cons] at h
    cases hs : listingStep base acc b with
    | error x => rw [hs] at h; cases h
    | ok acc2 =>
      rw [hs] at h
      refine ih acc2 rs h ?_
      intro r hr
      unfold listingStep at hs
      cases hbv : extractBlock base b with
      | error x => rw [hbv] at hs; cases hs
      | ok bl =>
        rw [hbv] at hs
        have : acc ++ bl = acc2 := Except.ok.inj hs
        subst this
        rcases List.mem_append.mp hr with hin | hbl2
        · exact hacc r hin
        · cases b with
          | empty =>
            have : bl = [] := (Except.ok.inj hbv).symm
            subst this
            cases hbl2
          | malformed =>
            have : bl = [] := (Except.ok.inj hbv).symm
            subst this
            cases hbl2
          | parsed j =>
            exact extractFold_website (eventsOf j) [] bl hbv (by simp) r hbl2

/-- Inserting a malformed block anywhere leaves the fold unchanged. -/
theorem listingFold_malformed {base : String} :
    ∀ (l1 l2 : List Block) (acc : List RawEvent),
    (l1 ++ Block.malformed :: l2).foldlM (listingStep base) acc
      = (l1 ++ l2).foldlM (listingStep base) acc := by
  intro l1
  induction l1 with
  | nil =>
    intro l2 acc
    rw [List.nil_append, List.nil_append, List.foldlM_cons]
    have hstep : listingStep base acc .malformed = .ok acc := by
      simp [listingStep, extractBlock]
    rw [hstep]
    rfl
  | cons b l1 ih =>
    intro l2 acc
    rw [List.cons_append, List.cons_append, List.foldlM_cons, List.foldlM_cons]
    cases hs : listingStep base acc b with
    | error x => rfl
    | ok acc2 => exact ih l2 acc2

/-- C7 counterexample: a well-formed document with exactly one
structured-data block typed "Event" (and no others) on which
parse_listing raises instead of returning one record: the event's
location is a bare string, so the unguarded location.get("geo") call
fails with AttributeError. -/
theorem C7_counterexample :
    parseListing [strLocBlock] "http://x.edu" = .error () ∧
    countEvents [strLocBlock] = 1 :=
  ⟨rfl, rfl⟩

/-- C7 amended: for every document whose Event-typed objects are
extraction-safe — a location value, when present, that is a JSON object
and a url value that is a string or absent/empty — parse_listing returns
exactly one RawEventRecord per Event-typed object (N in total), ignoring
blocks and objects of other types; and a malformed block anywhere is
skipped silently, leaving the result unchanged. -/
theorem C7_extractor_counts :
    (∀ (blocks : List Block) (base : String),
      (∀ b ∈ blocks, wfBlock b = true) →
      ∃ rs, parseListing blocks base = .ok rs ∧ rs.length = countEvents blocks) ∧
    (∀ (l1 l2 : List Block) (base : String),
      parseListing (l1 ++ Block.malformed :: l2) base
        = parseListing (l1 ++ l2) base) := by
  constructor
  · intro blocks base h
    obtain ⟨rs, hrs, hlen⟩ := listingFold_ok blocks [] h
    exact ⟨rs, hrs, by simpa using hlen⟩
  · intro l1 l2 base
    exact listingFold_malformed l1 l2 []

/-- C7 witness: a document with one Event block, one non-Event block and
one malformed block yields exactly one record, and dropping the
malformed block changes nothing. -/
theorem C7_witness :
    (∃ rs, parseListing [.parsed goodObj, .parsed (.str "other"), .malformed]
        "http://x.edu" = .ok rs ∧
      rs.length = countEvents [.parsed goodObj, .parsed (.str "other"), .malformed]) ∧
    parseListing ([.parsed goodObj] ++ Block.malformed :: [.parsed (.str "other")])
        "http://x.edu"
      = parseListing ([.parsed goodObj] ++ [.parsed (.str "other")]) "http://x.edu" :=
  ⟨C7_extractor_counts.1 _ "http://x.edu" (by decide),
   C7_extractor_counts.2 [.parsed goodObj] [.parsed (.str "other")] "http://x.edu"⟩

/-- C10: every RawEventRecord parse_listing produces carries a website
that keeps the page's scheme when the base URL is absolute (it is
urljoin(base, raw url) or the base itself); and an Event object with no
url value (or an empty/falsy one) yields a record whose website equals
the base URL exactly. -/
theorem C10_website_field :
    (∀ (blocks : List Block) (base : String) (rs : List RawEvent),
      parseListing blocks base = .ok rs → hasScheme base = true →
      ∀ r ∈ rs, hasScheme r.website = true) ∧
    (∀ (base : String) (kvs : List (String × Json)),
      isEventObj (.obj kvs) = true → locOk (.obj kvs) = true →
      (Json.get (.obj kvs) "url" (.str "")).falsy = true →
      ∃ r, parseListing [.parsed (.obj kvs)] base = .ok [r] ∧ r.website = base) := by
  constructor
  · intro blocks base rs h hb r hr
    have hw := listingFold_website blocks [] rs h (by simp) r hr
    rcases hw with hbase | ⟨u, hu⟩
    · rw [hbase]; exact hb
    · rw [hu]; exact urljoin_hasScheme base u hb
  · intro base kvs hev hloc hfal
    have hjoin : urljoinJ base (Json.get (.obj kvs) "url" (.str "")) = .ok base := by
      simp [urljoinJ, hfal]
    have hex : ∃ r, extractEvent base (.obj kvs) = .ok r ∧ r.website = base := by
      unfold extractEvent
      rw [hjoin]
      have hl : (Json.get (.obj kvs) "location" (.obj [])).isObj = true := hloc
      simp only [hl, eq_self_iff_true, if_true]
      exact ⟨_, rfl, rfl⟩
    obtain ⟨r, hr, hw⟩ := hex
    refine ⟨r, ?_, hw⟩
    have hstep : extractStep base [] (.obj kvs) = .ok [r] := by
      unfold extractStep
      rw [if_pos hev, hr]
      rfl
    show List.foldlM (listingStep base) [] [.parsed (.obj kvs)] = .ok [r]
    rw [List.foldlM_cons]
    have hblock : extractBlock base (.parsed (.obj kvs)) = .ok [r] := by
      show List.foldlM (extractStep base) [] [Json.obj kvs] = .ok [r]
      rw [List.foldlM_cons, hstep]
      rfl
    have hls : listingStep base [] (.parsed (.obj kvs)) = .ok [r] := by
      unfold listingStep
      rw [hblock]
      rfl
    rw [hls]
    rfl

/-- C10 witness: the Event fixture with an empty url string produces one
record whose website is exactly the page's base URL. -/
theorem C10_witness :
    ∃ r, parseListing [.parsed (.obj goodKvs)] "http://x.edu" = .ok [r] ∧
      r.website = "http://x.edu" :=
  C10_website_field.2 "http://x.edu" goodKvs (by decide) (by decide) (by decide)

end DucksGather
